import Mathlib

/-!
Shallow embedding of `src/fastfield/writer.rs` (fast field accumulation and
columnar serialization): `FastFieldsWriter`, `IntFastFieldWriter` and
`WriterFastFieldAccessProvider`, together with spec-modelled interfaces for the
external collaborators (compressed value buffer, document id mapping, value
encoders, composite serializer).

Machine integers are modelled as `Nat` (u64/u32/usize) and `Int` (i64), with
explicit `% 2 ^ 32` where the source casts `u64` to `u32`.
-/

namespace FastFieldWriter

/-- Modelled from the spec: the external Compressed Value Buffer
(`tantivy_bitpacker::BlockedBitpacker`, not under src/), an append-only
sequence store with random access and full iteration. -/
structure BlockedBitpacker where
  entries : List Nat
deriving DecidableEq, Repr

/-- Modelled from the spec: append one value to the buffer. -/
def BlockedBitpacker.add (b : BlockedBitpacker) (val : Nat) : BlockedBitpacker :=
  ⟨b.entries ++ [val]⟩

/-- Modelled from the spec: random access into the buffer. -/
def BlockedBitpacker.get (b : BlockedBitpacker) (idx : Nat) : Nat :=
  b.entries.getD idx 0

/-- Modelled from the spec: full iteration over the buffer, in append order. -/
def BlockedBitpacker.iter (b : BlockedBitpacker) : List Nat :=
  b.entries

/-- Modelled from the spec: the external Document ID Mapping
(`crate::indexer::doc_id_mapping::DocIdMapping`, not under src/). It stores,
for each new document id, the old document id. -/
structure DocIdMapping where
  new_doc_id_to_old : List Nat
deriving DecidableEq, Repr

/-- Modelled from the spec: resolve a new document id to the old one. -/
def DocIdMapping.get_old_doc_id (m : DocIdMapping) (doc_id : Nat) : Nat :=
  m.new_doc_id_to_old.getD doc_id 0

/-- Modelled from the spec: the old-id sequence in new-id order. -/
def DocIdMapping.iter_old_doc_ids (m : DocIdMapping) : List Nat :=
  m.new_doc_id_to_old

/-- Modelled from the spec: the external order-preserving encoder
`common::i64_to_u64` (not under src/), mapping signed 64-bit integers
monotonically onto the unsigned 64-bit range. -/
def i64_to_u64 (v : Int) : Nat :=
  ((v + 2 ^ 63) % 2 ^ 64).toNat

/-- Modelled from the spec: the value the external monotone float encoder
`common::f64_to_u64` (not under src/) assigns to `0.0` (the sign-flip encoding
sends positive zero to `2 ^ 63`). Only this one value of the float encoder is
needed by the embedded code. -/
def f64_to_u64_zero : Nat :=
  2 ^ 63

/-- Date precisions, mirroring `crate::DatePrecision`. -/
inductive DatePrecision where
  | seconds
  | milliseconds
  | microseconds
deriving DecidableEq, Repr

/-- Modelled from the spec: a calendar timestamp, carried as microseconds since
the epoch (the representation underlying `DateTime`, not under src/). -/
structure DateTime where
  timestamp_micros : Int
deriving DecidableEq, Repr

/-- Modelled from the spec: truncate a timestamp to the given precision,
dropping finer components (`DateTime::truncate`, not under src/). Division is
truncating division, as in the source language. -/
def DateTime.truncate (d : DateTime) (precision : DatePrecision) : DateTime :=
  match precision with
  | .seconds => ⟨d.timestamp_micros.tdiv 1000000 * 1000000⟩
  | .milliseconds => ⟨d.timestamp_micros.tdiv 1000 * 1000⟩
  | .microseconds => d

/-- Modelled from the spec: the monotone encoding of a timestamp into the
unsigned 64-bit space (`MonotonicallyMappableToU64` for `DateTime`). -/
def DateTime.to_u64 (d : DateTime) : Nat :=
  i64_to_u64 d.timestamp_micros

/-- A document field value, restricted to the variants the single-value fast
field writer consumes (`crate::schema::Value`). -/
inductive Value where
  | u64Val (v : Nat)
  | i64Val (v : Int)
  | boolVal (b : Bool)
  | dateVal (d : DateTime)
deriving DecidableEq, Repr

/-- Modelled from the spec: the external Value Encoder dispatch
(`super::value_to_u64`, not under src/): each typed value goes to its
order-preserving unsigned 64-bit representative. -/
def value_to_u64 : Value → Nat
  | .u64Val v => v
  | .i64Val v => i64_to_u64 v
  | .boolVal b => if b then 1 else 0
  | .dateVal d => d.to_u64

/-- Whether a value is a date value. -/
def Value.is_date : Value → Bool
  | .dateVal _ => true
  | _ => false

/-- A document: an ordered list of (field, value) pairs
(`crate::schema::Document`). Fields are opaque identifiers, modelled as `Nat`. -/
structure Document where
  field_values : List (Nat × Value)
deriving DecidableEq, Repr

/-- Modelled from the spec: `Document::get_first` returns the first value
attached to the given field, if any. -/
def Document.get_first (doc : Document) (field : Nat) : Option Value :=
  (doc.field_values.find? (fun fv => fv.1 == field)).map (fun fv => fv.2)

/-- Fast field cardinality (`crate::schema::Cardinality`). -/
inductive Cardinality where
  | singleValue
  | multiValues
deriving DecidableEq, Repr

/-- Numeric field options: the declared fast field cardinality, if any. -/
structure IntOptions where
  fastfield_cardinality : Option Cardinality
deriving DecidableEq, Repr

/-- `get_fastfield_cardinality` on numeric options. -/
def IntOptions.get_fastfield_cardinality (o : IntOptions) : Option Cardinality :=
  o.fastfield_cardinality

/-- Date field options: cardinality plus the configured precision. -/
structure DateOptions where
  fastfield_cardinality : Option Cardinality
  precision : DatePrecision
deriving DecidableEq, Repr

/-- `get_fastfield_cardinality` on date options. -/
def DateOptions.get_fastfield_cardinality (o : DateOptions) : Option Cardinality :=
  o.fastfield_cardinality

/-- `get_precision` on date options. -/
def DateOptions.get_precision (o : DateOptions) : DatePrecision :=
  o.precision

/-- Text field options: whether the field is marked fast. -/
structure TextOptions where
  fast : Bool
deriving DecidableEq, Repr

/-- Bytes field options: whether the field is marked fast. -/
structure BytesOptions where
  fast : Bool
deriving DecidableEq, Repr

/-- `is_fast` on bytes options. -/
def BytesOptions.is_fast (o : BytesOptions) : Bool :=
  o.fast

/-- The field type tags consumed by `FastFieldsWriter::from_schema`
(`crate::schema::FieldType`). -/
inductive FieldType where
  | i64Field (o : IntOptions)
  | u64Field (o : IntOptions)
  | f64Field (o : IntOptions)
  | boolField (o : IntOptions)
  | dateField (o : DateOptions)
  | facetField
  | strField (o : TextOptions)
  | bytesField (o : BytesOptions)
  | jsonObjectField
deriving DecidableEq, Repr

/-- A schema field entry, reduced to its field type (`crate::schema::FieldEntry`). -/
structure FieldEntry where
  field_type : FieldType
deriving DecidableEq, Repr

/-- Modelled from the spec: `FieldEntry::is_fast` (not under src/) — whether the
entry is configured as a fast field. Only the `strField` branch is exercised by
the embedded code. -/
def FieldEntry.is_fast (e : FieldEntry) : Bool :=
  match e.field_type with
  | .i64Field o | .u64Field o | .f64Field o | .boolField o => o.fastfield_cardinality.isSome
  | .dateField o => o.fastfield_cardinality.isSome
  | .facetField => true
  | .strField o => o.fast
  | .bytesField o => o.fast
  | .jsonObjectField => false

/-- A schema: the ordered list of field entries; `fields()` enumerates them
with their field ids (`crate::schema::Schema`). -/
structure Schema where
  entries : List FieldEntry
deriving DecidableEq, Repr

/-- `Schema::fields`: (field id, entry) pairs, ids being positions. -/
def Schema.fields (s : Schema) : List (Nat × FieldEntry) :=
  s.entries.enum

/-- `fast_field_default_value` (src/fastfield/writer.rs:27-33): the recorded
value for documents missing the field. -/
def fast_field_default_value (field_entry : FieldEntry) : Nat :=
  match field_entry.field_type with
  | .i64Field _ | .dateField _ => i64_to_u64 0
  | .f64Field _ => f64_to_u64_zero
  | _ => 0

/-- The stats handed to the serializer (`FastFieldStats`). -/
structure FastFieldStats where
  min_value : Nat
  max_value : Nat
  num_vals : Nat
deriving DecidableEq, Repr

/-- `IntFastFieldWriter` (src/fastfield/writer.rs:253-261): the single-value
accumulator. -/
structure IntFastFieldWriter where
  field : Nat
  precision_opt : Option DatePrecision
  vals : BlockedBitpacker
  val_count : Nat
  val_if_missing : Nat
  val_min : Nat
  val_max : Nat
deriving DecidableEq, Repr

/-- `IntFastFieldWriter::new` (src/fastfield/writer.rs:265-275). -/
def IntFastFieldWriter.new (field : Nat) (precision_opt : Option DatePrecision) :
    IntFastFieldWriter :=
  { field := field
    precision_opt := precision_opt
    vals := ⟨[]⟩
    val_count := 0
    val_if_missing := 0
    val_min := 2 ^ 64 - 1
    val_max := 0 }

/-- `IntFastFieldWriter::set_val_if_missing` (src/fastfield/writer.rs:291-293). -/
def IntFastFieldWriter.set_val_if_missing (w : IntFastFieldWriter) (val_if_missing : Nat) :
    IntFastFieldWriter :=
  { w with val_if_missing := val_if_missing }

/-- `IntFastFieldWriter::add_val` (src/fastfield/writer.rs:300-311). -/
def IntFastFieldWriter.add_val (w : IntFastFieldWriter) (val : Nat) : IntFastFieldWriter :=
  { w with
    vals := w.vals.add val
    val_max := if val > w.val_max then val else w.val_max
    val_min := if val < w.val_min then val else w.val_min
    val_count := w.val_count + 1 }

/-- `IntFastFieldWriter::add_document` (src/fastfield/writer.rs:329-344). -/
def IntFastFieldWriter.add_document (w : IntFastFieldWriter) (doc : Document) :
    IntFastFieldWriter :=
  match doc.get_first w.field with
  | some v =>
    let value :=
      match w.precision_opt, v with
      | some precision, .dateVal date_val => (date_val.truncate precision).to_u64
      | _, _ => value_to_u64 v
    w.add_val value
  | none => w.add_val w.val_if_missing

/-- `IntFastFieldWriter::iter` (src/fastfield/writer.rs:347-349). -/
def IntFastFieldWriter.iter (w : IntFastFieldWriter) : List Nat :=
  w.vals.iter

/-- The stats computed at the head of `IntFastFieldWriter::serialize`
(src/fastfield/writer.rs:357-367): the empty sentinel `val_min > val_max`
is normalized to `(0, 0)`. -/
def IntFastFieldWriter.statsSnapshot (w : IntFastFieldWriter) : FastFieldStats :=
  if w.val_min > w.val_max then
    { min_value := 0, max_value := 0, num_vals := w.val_count }
  else
    { min_value := w.val_min, max_value := w.val_max, num_vals := w.val_count }

/-- `WriterFastFieldAccessProvider` (src/fastfield/writer.rs:381-386). -/
structure WriterFastFieldAccessProvider where
  doc_id_map : Option DocIdMapping
  vals : BlockedBitpacker
  stats : FastFieldStats
deriving DecidableEq, Repr

/-- `WriterFastFieldAccessProvider::get_val` (src/fastfield/writer.rs:396-405).
The source casts the `u64` doc id to `u32` before resolving it through the
mapping (`doc as u32`), modelled as `% 2 ^ 32`; without a mapping the full id
indexes the buffer. -/
def WriterFastFieldAccessProvider.get_val (acc : WriterFastFieldAccessProvider)
    (doc : Nat) : Nat :=
  match acc.doc_id_map with
  | some doc_id_map => acc.vals.get (doc_id_map.get_old_doc_id (doc % 2 ^ 32))
  | none => acc.vals.get doc

/-- `WriterFastFieldAccessProvider::iter` (src/fastfield/writer.rs:407-417). -/
def WriterFastFieldAccessProvider.iter (acc : WriterFastFieldAccessProvider) : List Nat :=
  match acc.doc_id_map with
  | some doc_id_map => doc_id_map.iter_old_doc_ids.map (fun doc_id => acc.vals.get doc_id)
  | none => acc.vals.iter

/-- `WriterFastFieldAccessProvider::min_value` (src/fastfield/writer.rs:419-421). -/
def WriterFastFieldAccessProvider.min_value (acc : WriterFastFieldAccessProvider) : Nat :=
  acc.stats.min_value

/-- `WriterFastFieldAccessProvider::max_value` (src/fastfield/writer.rs:423-425). -/
def WriterFastFieldAccessProvider.max_value (acc : WriterFastFieldAccessProvider) : Nat :=
  acc.stats.max_value

/-- `WriterFastFieldAccessProvider::num_vals` (src/fastfield/writer.rs:427-429). -/
def WriterFastFieldAccessProvider.num_vals (acc : WriterFastFieldAccessProvider) : Nat :=
  acc.stats.num_vals

/-- The access provider built inside `IntFastFieldWriter::serialize`
(src/fastfield/writer.rs:369-373). -/
def IntFastFieldWriter.accessProvider (w : IntFastFieldWriter)
    (doc_id_map : Option DocIdMapping) : WriterFastFieldAccessProvider :=
  { doc_id_map := doc_id_map, vals := w.vals, stats := w.statsSnapshot }

/-- A column-creation request received by the external composite serializer:
either a u64 column carrying its stats snapshot, or a column delegated to the
external multi-valued / bytes writers. -/
inductive ColumnWrite where
  | u64Col (field : Nat) (stats : FastFieldStats)
  | multiCol (field : Nat)
  | bytesCol (field : Nat)
deriving DecidableEq, Repr

/-- The field a column-creation request is for. -/
def ColumnWrite.fieldOf : ColumnWrite → Nat
  | .u64Col field _ => field
  | .multiCol field => field
  | .bytesCol field => field

/-- Modelled from the spec: the external `CompositeFastFieldSerializer`
(not under src/). Each column-creation call either fails with an I/O error
decided by `oracle` (per field) or appends the request to `log`; partially
serialized output is never rolled back. -/
structure CompositeFastFieldSerializer (ε : Type) where
  oracle : Nat → Option ε
  log : List ColumnWrite

/-- Modelled from the spec: one column-creation call on the serializer. -/
def CompositeFastFieldSerializer.write {ε : Type} (s : CompositeFastFieldSerializer ε)
    (c : ColumnWrite) : CompositeFastFieldSerializer ε × Option ε :=
  match s.oracle c.fieldOf with
  | some e => (s, some e)
  | none => ({ s with log := s.log ++ [c] }, none)

/-- Modelled from the spec: `create_auto_detect_u64_fast_field` — request a u64
fast field column for `field` from the given accessor. -/
def CompositeFastFieldSerializer.create_auto_detect_u64_fast_field {ε : Type}
    (s : CompositeFastFieldSerializer ε) (field : Nat)
    (fastfield_accessor : WriterFastFieldAccessProvider) :
    CompositeFastFieldSerializer ε × Option ε :=
  s.write (.u64Col field fastfield_accessor.stats)

/-- `IntFastFieldWriter::serialize` (src/fastfield/writer.rs:352-378): compute
the stats snapshot, build the access provider, and hand both to the external
serializer. Returns the serializer state and the error, if any. -/
def IntFastFieldWriter.serialize {ε : Type} (w : IntFastFieldWriter)
    (s : CompositeFastFieldSerializer ε) (doc_id_map : Option DocIdMapping) :
    CompositeFastFieldSerializer ε × Option ε :=
  s.create_auto_detect_u64_fast_field w.field (w.accessProvider doc_id_map)

/-- Per-term-id ordinal mapping (`FnvHashMap<UnorderedTermId, TermOrdinal>`),
opaque to this layer. -/
def TermIdToOrdinal : Type :=
  List (Nat × Nat)

/-- Modelled from the spec: the external multi-valued / term-ordinal writer
(`MultiValuedFastFieldWriter`, not under src/); only its field identity and its
serialization call matter to this layer. -/
structure MultiValuedFastFieldWriter where
  field : Nat
deriving DecidableEq, Repr

/-- Modelled from the spec: external multi-valued writer serialization — one
column-creation call for its field. -/
def MultiValuedFastFieldWriter.serialize {ε : Type} (w : MultiValuedFastFieldWriter)
    (s : CompositeFastFieldSerializer ε) (_term_mapping : Option TermIdToOrdinal)
    (_doc_id_map : Option DocIdMapping) :
    CompositeFastFieldSerializer ε × Option ε :=
  s.write (.multiCol w.field)

/-- Modelled from the spec: external multi-valued writer document fanout; its
internal state is out of scope. -/
def MultiValuedFastFieldWriter.add_document (w : MultiValuedFastFieldWriter)
    (_doc : Document) : MultiValuedFastFieldWriter :=
  w

/-- Modelled from the spec: the external variable-length bytes writer
(`BytesFastFieldWriter`, not under src/). -/
structure BytesFastFieldWriter where
  field : Nat
deriving DecidableEq, Repr

/-- Modelled from the spec: external bytes writer serialization — one
column-creation call for its field. -/
def BytesFastFieldWriter.serialize {ε : Type} (w : BytesFastFieldWriter)
    (s : CompositeFastFieldSerializer ε) (_doc_id_map : Option DocIdMapping) :
    CompositeFastFieldSerializer ε × Option ε :=
  s.write (.bytesCol w.field)

/-- Modelled from the spec: external bytes writer document fanout; its internal
state is out of scope. -/
def BytesFastFieldWriter.add_document (w : BytesFastFieldWriter) (_doc : Document) :
    BytesFastFieldWriter :=
  w

/-- `FastFieldsWriter` (src/fastfield/writer.rs:20-25): the four writer
collections. -/
structure FastFieldsWriter where
  term_id_writers : List MultiValuedFastFieldWriter
  single_value_writers : List IntFastFieldWriter
  multi_values_writers : List MultiValuedFastFieldWriter
  bytes_value_writers : List BytesFastFieldWriter
deriving DecidableEq, Repr

/-- One step of the `FastFieldsWriter::from_schema` loop
(src/fastfield/writer.rs:43-103): dispatch one schema field to its writer
collection. -/
def fromSchemaStep (acc : FastFieldsWriter) (fe : Nat × FieldEntry) : FastFieldsWriter :=
  match fe.2.field_type with
  | .i64Field int_options | .u64Field int_options | .f64Field int_options
  | .boolField int_options =>
    match int_options.get_fastfield_cardinality with
    | some .singleValue =>
      let fast_field_writer := IntFastFieldWriter.new fe.1 none
      let default_value := fast_field_default_value fe.2
      let fast_field_writer := fast_field_writer.set_val_if_missing default_value
      { acc with single_value_writers := acc.single_value_writers ++ [fast_field_writer] }
    | some .multiValues =>
      { acc with multi_values_writers := acc.multi_values_writers ++ [⟨fe.1⟩] }
    | none => acc
  | .dateField options =>
    match options.get_fastfield_cardinality with
    | some .singleValue =>
      let fast_field_writer := IntFastFieldWriter.new fe.1 (some options.get_precision)
      let default_value := fast_field_default_value fe.2
      let fast_field_writer := fast_field_writer.set_val_if_missing default_value
      { acc with single_value_writers := acc.single_value_writers ++ [fast_field_writer] }
    | some .multiValues =>
      { acc with multi_values_writers := acc.multi_values_writers ++ [⟨fe.1⟩] }
    | none => acc
  | .facetField =>
    { acc with term_id_writers := acc.term_id_writers ++ [⟨fe.1⟩] }
  | .strField _ =>
    if fe.2.is_fast then
      { acc with term_id_writers := acc.term_id_writers ++ [⟨fe.1⟩] }
    else acc
  | .bytesField bytes_option =>
    if bytes_option.is_fast then
      { acc with bytes_value_writers := acc.bytes_value_writers ++ [⟨fe.1⟩] }
    else acc
  | .jsonObjectField => acc

/-- `FastFieldsWriter::from_schema` (src/fastfield/writer.rs:37-110). -/
def FastFieldsWriter.from_schema (schema : Schema) : FastFieldsWriter :=
  schema.fields.foldl fromSchemaStep ⟨[], [], [], []⟩

/-- `FastFieldsWriter::add_document` (src/fastfield/writer.rs:196-209). -/
def FastFieldsWriter.add_document (w : FastFieldsWriter) (doc : Document) :
    FastFieldsWriter :=
  { term_id_writers := w.term_id_writers.map (fun fw => fw.add_document doc)
    single_value_writers := w.single_value_writers.map (fun fw => fw.add_document doc)
    multi_values_writers := w.multi_values_writers.map (fun fw => fw.add_document doc)
    bytes_value_writers := w.bytes_value_writers.map (fun fw => fw.add_document doc) }

/-- The `?`-propagating serialization loop over one writer collection: stop at
the first error, keeping the serializer state reached so far. -/
def serializeEach {ε α : Type} (f : α → CompositeFastFieldSerializer ε →
    CompositeFastFieldSerializer ε × Option ε) :
    List α → CompositeFastFieldSerializer ε → CompositeFastFieldSerializer ε × Option ε
  | [], s => (s, none)
  | w :: ws, s =>
    match f w s with
    | (s1, none) => serializeEach f ws s1
    | (s1, some e) => (s1, some e)

/-- `FastFieldsWriter::serialize` (src/fastfield/writer.rs:213-235): serialize
the term-ordinal writers, then the single-value writers, then the multi-value
writers, then the bytes writers, propagating the first error. -/
def FastFieldsWriter.serialize {ε : Type} (w : FastFieldsWriter)
    (s : CompositeFastFieldSerializer ε) (mapping : Nat → Option TermIdToOrdinal)
    (doc_id_map : Option DocIdMapping) :
    CompositeFastFieldSerializer ε × Option ε :=
  match serializeEach (fun fw st => fw.serialize st (mapping fw.field) doc_id_map)
      w.term_id_writers s with
  | (s1, some e) => (s1, some e)
  | (s1, none) =>
    match serializeEach (fun fw st => fw.serialize st doc_id_map)
        w.single_value_writers s1 with
    | (s2, some e) => (s2, some e)
    | (s2, none) =>
      match serializeEach (fun fw st => fw.serialize st (mapping fw.field) doc_id_map)
          w.multi_values_writers s2 with
      | (s3, some e) => (s3, some e)
      | (s3, none) =>
        serializeEach (fun fw st => fw.serialize st doc_id_map) w.bytes_value_writers s3

/-- The column-creation requests a `FastFieldsWriter` issues, in issue order
(term-ordinal, single-value, multi-value, bytes). -/
def FastFieldsWriter.columnWrites (w : FastFieldsWriter) : List ColumnWrite :=
  w.term_id_writers.map (fun fw => .multiCol fw.field)
    ++ w.single_value_writers.map (fun fw => .u64Col fw.field fw.statsSnapshot)
    ++ w.multi_values_writers.map (fun fw => .multiCol fw.field)
    ++ w.bytes_value_writers.map (fun fw => .bytesCol fw.field)

/-- Spec-side serialization runner: issue the column-creation requests in
order, stopping at the first I/O failure and keeping the output already
produced (the spec's "partially serialized output is not rolled back"). -/
def specWriteRun {ε : Type} : CompositeFastFieldSerializer ε → List ColumnWrite →
    CompositeFastFieldSerializer ε × Option ε
  | s, [] => (s, none)
  | s, c :: cs =>
    match s.write c with
    | (s1, none) => specWriteRun s1 cs
    | (s1, some e) => (s1, some e)

/-- The writer collection a field is assigned to. Follows the spec's dispatch
rules (§4.1 build): numeric/bool/date single-value → single-value accumulator,
numeric/date multi-value → multi-valued writer, facet → term-ordinal writer
regardless of cardinality, fast string → term-ordinal writer, fast bytes →
bytes writer, everything else untracked. -/
inductive WriterAssignment where
  | termOrdinal
  | singleValue
  | multiValue
  | bytesValue
  | untracked
deriving DecidableEq, Repr

/-- Spec-side classifier: which collection an entry's type and cardinality
place it in. -/
def specWriterAssignment (e : FieldEntry) : WriterAssignment :=
  match e.field_type with
  | .i64Field o | .u64Field o | .f64Field o | .boolField o =>
    match o.fastfield_cardinality with
    | some .singleValue => .singleValue
    | some .multiValues => .multiValue
    | none => .untracked
  | .dateField o =>
    match o.fastfield_cardinality with
    | some .singleValue => .singleValue
    | some .multiValues => .multiValue
    | none => .untracked
  | .facetField => .termOrdinal
  | .strField o => if o.fast then .termOrdinal else .untracked
  | .bytesField o => if o.fast then .bytesValue else .untracked
  | .jsonObjectField => .untracked

/-- Spec-side description of the single-value accumulator created for one
schema field, if any: a fresh writer with the field's precision and the
configured missing-value default. -/
def specSingleValueWriter (fe : Nat × FieldEntry) : Option IntFastFieldWriter :=
  match fe.2.field_type with
  | .i64Field o | .u64Field o | .f64Field o | .boolField o =>
    match o.fastfield_cardinality with
    | some .singleValue =>
      some ((IntFastFieldWriter.new fe.1 none).set_val_if_missing
        (fast_field_default_value fe.2))
    | _ => none
  | .dateField o =>
    match o.fastfield_cardinality with
    | some .singleValue =>
      some ((IntFastFieldWriter.new fe.1 (some o.precision)).set_val_if_missing
        (fast_field_default_value fe.2))
    | _ => none
  | _ => none

/-- Spec-side term-ordinal writer collection for a field list. -/
def specTermIdWriters (fes : List (Nat × FieldEntry)) : List MultiValuedFastFieldWriter :=
  (fes.filter fun fe => decide (specWriterAssignment fe.2 = .termOrdinal)).map
    fun fe => ⟨fe.1⟩

/-- Spec-side single-value writer collection for a field list. -/
def specSingleValueWriters (fes : List (Nat × FieldEntry)) : List IntFastFieldWriter :=
  fes.filterMap specSingleValueWriter

/-- Spec-side multi-value writer collection for a field list. -/
def specMultiValueWriters (fes : List (Nat × FieldEntry)) : List MultiValuedFastFieldWriter :=
  (fes.filter fun fe => decide (specWriterAssignment fe.2 = .multiValue)).map
    fun fe => ⟨fe.1⟩

/-- Spec-side bytes writer collection for a field list. -/
def specBytesWriters (fes : List (Nat × FieldEntry)) : List BytesFastFieldWriter :=
  (fes.filter fun fe => decide (specWriterAssignment fe.2 = .bytesValue)).map
    fun fe => ⟨fe.1⟩

/-! ## General helper lemmas -/

theorem fromSchemaStep_spec (acc : FastFieldsWriter) (fe : Nat × FieldEntry) :
    fromSchemaStep acc fe =
      { term_id_writers := acc.term_id_writers ++ specTermIdWriters [fe]
        single_value_writers := acc.single_value_writers ++ specSingleValueWriters [fe]
        multi_values_writers := acc.multi_values_writers ++ specMultiValueWriters [fe]
        bytes_value_writers := acc.bytes_value_writers ++ specBytesWriters [fe] } := by
  obtain ⟨f, ⟨ft⟩⟩ := fe
  cases ft with
  | i64Field o =>
    cases h : o.fastfield_cardinality with
    | none =>
      simp [fromSchemaStep, specTermIdWriters, specSingleValueWriters, specMultiValueWriters,
        specBytesWriters, specWriterAssignment, specSingleValueWriter,
        IntOptions.get_fastfield_cardinality, h]
    | some c =>
      cases c <;>
        simp [fromSchemaStep, specTermIdWriters, specSingleValueWriters,
          specMultiValueWriters, specBytesWriters, specWriterAssignment,
          specSingleValueWriter, IntOptions.get_fastfield_cardinality, h]
  | u64Field o =>
    cases h : o.fastfield_cardinality with
    | none =>
      simp [fromSchemaStep, specTermIdWriters, specSingleValueWriters, specMultiValueWriters,
        specBytesWriters, specWriterAssignment, specSingleValueWriter,
        IntOptions.get_fastfield_cardinality, h]
    | some c =>
      cases c <;>
        simp [fromSchemaStep, specTermIdWriters, specSingleValueWriters,
          specMultiValueWriters, specBytesWriters, specWriterAssignment,
          specSingleValueWriter, IntOptions.get_fastfield_cardinality, h]
  | f64Field o =>
    cases h : o.fastfield_cardinality with
    | none =>
      simp [fromSchemaStep, specTermIdWriters, specSingleValueWriters, specMultiValueWriters,
        specBytesWriters, specWriterAssignment, specSingleValueWriter,
        IntOptions.get_fastfield_cardinality, h]
    | some c =>
      cases c <;>
        simp [fromSchemaStep, specTermIdWriters, specSingleValueWriters,
          specMultiValueWriters, specBytesWriters, specWriterAssignment,
          specSingleValueWriter, IntOptions.get_fastfield_cardinality, h]
  | boolField o =>
    cases h : o.fastfield_cardinality with
    | none =>
      simp [fromSchemaStep, specTermIdWriters, specSingleValueWriters, specMultiValueWriters,
        specBytesWriters, specWriterAssignment, specSingleValueWriter,
        IntOptions.get_fastfield_cardinality, h]
    | some c =>
      cases c <;>
        simp [fromSchemaStep, specTermIdWriters, specSingleValueWriters,
          specMultiValueWriters, specBytesWriters, specWriterAssignment,
          specSingleValueWriter, IntOptions.get_fastfield_cardinality, h]
  | dateField o =>
    cases h : o.fastfield_cardinality with
    | none =>
      simp [fromSchemaStep, specTermIdWriters, specSingleValueWriters, specMultiValueWriters,
        specBytesWriters, specWriterAssignment, specSingleValueWriter,
        DateOptions.get_fastfield_cardinality, h]
    | some c =>
      cases c <;>
        simp [fromSchemaStep, specTermIdWriters, specSingleValueWriters,
          specMultiValueWriters, specBytesWriters, specWriterAssignment,
          specSingleValueWriter, DateOptions.get_fastfield_cardinality,
          DateOptions.get_precision, h]
  | facetField =>
    simp [fromSchemaStep, specTermIdWriters, specSingleValueWriters, specMultiValueWriters,
      specBytesWriters, specWriterAssignment, specSingleValueWriter]
  | strField o =>
    cases h : o.fast <;>
      simp [fromSchemaStep, specTermIdWriters, specSingleValueWriters, specMultiValueWriters,
        specBytesWriters, specWriterAssignment, specSingleValueWriter,
        FieldEntry.is_fast, h]
  | bytesField o =>
    cases h : o.fast <;>
      simp [fromSchemaStep, specTermIdWriters, specSingleValueWriters, specMultiValueWriters,
        specBytesWriters, specWriterAssignment, specSingleValueWriter,
        BytesOptions.is_fast, h]
  | jsonObjectField =>
    simp [fromSchemaStep, specTermIdWriters, specSingleValueWriters, specMultiValueWriters,
      specBytesWriters, specWriterAssignment, specSingleValueWriter]

theorem specTermIdWriters_append (a b : List (Nat × FieldEntry)) :
    specTermIdWriters (a ++ b) = specTermIdWriters a ++ specTermIdWriters b := by
  simp [specTermIdWriters, List.filter_append]

theorem specSingleValueWriters_append (a b : List (Nat × FieldEntry)) :
    specSingleValueWriters (a ++ b)
      = specSingleValueWriters a ++ specSingleValueWriters b := by
  simp [specSingleValueWriters, List.filterMap_append]

theorem specMultiValueWriters_append (a b : List (Nat × FieldEntry)) :
    specMultiValueWriters (a ++ b) = specMultiValueWriters a ++ specMultiValueWriters b := by
  simp [specMultiValueWriters, List.filter_append]

theorem specBytesWriters_append (a b : List (Nat × FieldEntry)) :
    specBytesWriters (a ++ b) = specBytesWriters a ++ specBytesWriters b := by
  simp [specBytesWriters, List.filter_append]

theorem foldl_fromSchemaStep_spec (fes : List (Nat × FieldEntry)) (acc : FastFieldsWriter) :
    fes.foldl fromSchemaStep acc =
      { term_id_writers := acc.term_id_writers ++ specTermIdWriters fes
        single_value_writers := acc.single_value_writers ++ specSingleValueWriters fes
        multi_values_writers := acc.multi_values_writers ++ specMultiValueWriters fes
        bytes_value_writers := acc.bytes_value_writers ++ specBytesWriters fes } := by
  induction fes generalizing acc with
  | nil =>
    simp [specTermIdWriters, specSingleValueWriters, specMultiValueWriters, specBytesWriters]
  | cons fe t ih =>
    rw [List.foldl_cons, ih, fromSchemaStep_spec]
    have h1 : fe :: t = [fe] ++ t := rfl
    rw [h1, specTermIdWriters_append, specSingleValueWriters_append,
      specMultiValueWriters_append, specBytesWriters_append]
    simp [List.append_assoc]

theorem from_schema_spec (schema : Schema) :
    FastFieldsWriter.from_schema schema =
      { term_id_writers := specTermIdWriters schema.fields
        single_value_writers := specSingleValueWriters schema.fields
        multi_values_writers := specMultiValueWriters schema.fields
        bytes_value_writers := specBytesWriters schema.fields } := by
  unfold FastFieldsWriter.from_schema
  rw [foldl_fromSchemaStep_spec]
  simp

theorem specSingleValueWriter_spec (fe : Nat × FieldEntry) (w : IntFastFieldWriter)
    (h : specSingleValueWriter fe = some w) :
    w.field = fe.1 ∧ w.val_if_missing = fast_field_default_value fe.2 ∧
      specWriterAssignment fe.2 = .singleValue := by
  obtain ⟨f, ⟨ft⟩⟩ := fe
  cases ft with
  | i64Field o =>
    cases hc : o.fastfield_cardinality with
    | none => simp [specSingleValueWriter, hc] at h
    | some c =>
      cases c with
      | singleValue =>
        simp [specSingleValueWriter, hc] at h
        subst h
        exact ⟨rfl, rfl, by simp [specWriterAssignment, hc]⟩
      | multiValues => simp [specSingleValueWriter, hc] at h
  | u64Field o =>
    cases hc : o.fastfield_cardinality with
    | none => simp [specSingleValueWriter, hc] at h
    | some c =>
      cases c with
      | singleValue =>
        simp [specSingleValueWriter, hc] at h
        subst h
        exact ⟨rfl, rfl, by simp [specWriterAssignment, hc]⟩
      | multiValues => simp [specSingleValueWriter, hc] at h
  | f64Field o =>
    cases hc : o.fastfield_cardinality with
    | none => simp [specSingleValueWriter, hc] at h
    | some c =>
      cases c with
      | singleValue =>
        simp [specSingleValueWriter, hc] at h
        subst h
        exact ⟨rfl, rfl, by simp [specWriterAssignment, hc]⟩
      | multiValues => simp [specSingleValueWriter, hc] at h
  | boolField o =>
    cases hc : o.fastfield_cardinality with
    | none => simp [specSingleValueWriter, hc] at h
    | some c =>
      cases c with
      | singleValue =>
        simp [specSingleValueWriter, hc] at h
        subst h
        exact ⟨rfl, rfl, by simp [specWriterAssignment, hc]⟩
      | multiValues => simp [specSingleValueWriter, hc] at h
  | dateField o =>
    cases hc : o.fastfield_cardinality with
    | none => simp [specSingleValueWriter, hc] at h
    | some c =>
      cases c with
      | singleValue =>
        simp [specSingleValueWriter, hc] at h
        subst h
        exact ⟨rfl, rfl, by simp [specWriterAssignment, hc]⟩
      | multiValues => simp [specSingleValueWriter, hc] at h
  | facetField => simp [specSingleValueWriter] at h
  | strField o => simp [specSingleValueWriter] at h
  | bytesField o => simp [specSingleValueWriter] at h
  | jsonObjectField => simp [specSingleValueWriter] at h

theorem rangeMapGetD (l : List Nat) :
    (List.range l.length).map (fun i => l.getD i 0) = l := by
  induction l with
  | nil => simp
  | cons a t ih =>
    rw [List.length_cons, List.range_succ_eq_map, List.map_cons, List.map_map]
    simp only [Function.comp_def, List.getD_cons_zero, List.getD_cons_succ]
    rw [ih]

theorem addVal_val_min (w : IntFastFieldWriter) (v : Nat) :
    (w.add_val v).val_min = min w.val_min v := by
  simp only [IntFastFieldWriter.add_val]
  rcases lt_or_ge v w.val_min with h | h
  · simp [h, min_eq_right (le_of_lt h)]
  · simp [not_lt.mpr h, min_eq_left h]

theorem addVal_val_max (w : IntFastFieldWriter) (v : Nat) :
    (w.add_val v).val_max = max w.val_max v := by
  simp only [IntFastFieldWriter.add_val]
  rcases lt_or_ge w.val_max v with h | h
  · simp [h, max_eq_right (le_of_lt h)]
  · simp [not_lt.mpr h, max_eq_left h]

theorem addVal_val_count (w : IntFastFieldWriter) (v : Nat) :
    (w.add_val v).val_count = w.val_count + 1 := rfl

theorem addVal_entries (w : IntFastFieldWriter) (v : Nat) :
    (w.add_val v).vals.entries = w.vals.entries ++ [v] := rfl

theorem addDocument_eq_addVal (w : IntFastFieldWriter) (doc : Document) :
    ∃ x, w.add_document doc = w.add_val x := by
  unfold IntFastFieldWriter.add_document
  cases doc.get_first w.field with
  | none => exact ⟨w.val_if_missing, rfl⟩
  | some v => exact ⟨_, rfl⟩

theorem addDocument_val_count (w : IntFastFieldWriter) (doc : Document) :
    (w.add_document doc).val_count = w.val_count + 1 := by
  obtain ⟨x, hx⟩ := addDocument_eq_addVal w doc
  rw [hx, addVal_val_count]

theorem addDocument_entries_length (w : IntFastFieldWriter) (doc : Document) :
    (w.add_document doc).vals.entries.length = w.vals.entries.length + 1 := by
  obtain ⟨x, hx⟩ := addDocument_eq_addVal w doc
  rw [hx, addVal_entries, List.length_append, List.length_cons, List.length_nil]

theorem foldl_addDocument_val_count (docs : List Document) (w : IntFastFieldWriter) :
    (docs.foldl IntFastFieldWriter.add_document w).val_count = w.val_count + docs.length := by
  induction docs generalizing w with
  | nil => simp
  | cons d t ih =>
    rw [List.foldl_cons, ih, addDocument_val_count]
    simp [List.length_cons]
    omega

theorem foldl_addVal_val_min (vs : List Nat) (w : IntFastFieldWriter) :
    (vs.foldl IntFastFieldWriter.add_val w).val_min = vs.foldl min w.val_min := by
  induction vs generalizing w with
  | nil => rfl
  | cons v t ih => rw [List.foldl_cons, List.foldl_cons, ih, addVal_val_min]

theorem foldl_addVal_val_max (vs : List Nat) (w : IntFastFieldWriter) :
    (vs.foldl IntFastFieldWriter.add_val w).val_max = vs.foldl max w.val_max := by
  induction vs generalizing w with
  | nil => rfl
  | cons v t ih => rw [List.foldl_cons, List.foldl_cons, ih, addVal_val_max]

theorem foldl_min_le_init (l : List Nat) (a : Nat) : l.foldl min a ≤ a := by
  induction l generalizing a with
  | nil => simp
  | cons x t ih => exact le_trans (ih (min a x)) (min_le_left a x)

theorem foldl_min_le_mem (l : List Nat) (a : Nat) : ∀ v ∈ l, l.foldl min a ≤ v := by
  induction l generalizing a with
  | nil => simp
  | cons x t ih =>
    intro v hv
    rcases List.mem_cons.mp hv with h | h
    · subst h
      exact le_trans (foldl_min_le_init t (min a v)) (min_le_right a v)
    · exact ih (min a x) v h

theorem foldl_min_mem (l : List Nat) (a : Nat) : l.foldl min a = a ∨ l.foldl min a ∈ l := by
  induction l generalizing a with
  | nil => simp
  | cons x t ih =>
    rcases ih (min a x) with h | h
    · rcases le_total a x with hax | hax
      · left; rw [List.foldl_cons, h, min_eq_left hax]
      · right; rw [List.foldl_cons, h, min_eq_right hax]; exact List.mem_cons_self x t
    · right; exact List.mem_cons_of_mem x h

theorem foldl_max_init_le (l : List Nat) (a : Nat) : a ≤ l.foldl max a := by
  induction l generalizing a with
  | nil => simp
  | cons x t ih => exact le_trans (le_max_left a x) (ih (max a x))

theorem foldl_max_mem_le (l : List Nat) (a : Nat) : ∀ v ∈ l, v ≤ l.foldl max a := by
  induction l generalizing a with
  | nil => simp
  | cons x t ih =>
    intro v hv
    rcases List.mem_cons.mp hv with h | h
    · subst h
      exact le_trans (le_max_right a v) (foldl_max_init_le t (max a v))
    · exact ih (max a x) v h

theorem foldl_max_mem (l : List Nat) (a : Nat) : l.foldl max a = a ∨ l.foldl max a ∈ l := by
  induction l generalizing a with
  | nil => simp
  | cons x t ih =>
    rcases ih (max a x) with h | h
    · rcases le_total a x with hax | hax
      · right; rw [List.foldl_cons, h, max_eq_right hax]; exact List.mem_cons_self x t
      · left; rw [List.foldl_cons, h, max_eq_left hax]
    · right; exact List.mem_cons_of_mem x h

theorem fields_entry_unique (s : Schema) (f : Nat) (e1 e2 : FieldEntry)
    (h1 : (f, e1) ∈ s.fields) (h2 : (f, e2) ∈ s.fields) : e1 = e2 := by
  have g1 : s.entries[f]? = some e1 := List.mk_mem_enum_iff_getElem?.mp h1
  have g2 : s.entries[f]? = some e2 := List.mk_mem_enum_iff_getElem?.mp h2
  rw [g1] at g2
  exact Option.some.inj g2

theorem exists_assignment_of_mem_termId (fes : List (Nat × FieldEntry)) (f : Nat)
    (h : f ∈ (specTermIdWriters fes).map MultiValuedFastFieldWriter.field) :
    ∃ e, (f, e) ∈ fes ∧ specWriterAssignment e = .termOrdinal := by
  simp only [specTermIdWriters, List.map_map, List.mem_map, List.mem_filter,
    decide_eq_true_eq, Function.comp_def] at h
  obtain ⟨⟨a, b⟩, ⟨hfe, ha⟩, hw⟩ := h
  subst hw
  exact ⟨b, hfe, ha⟩

theorem exists_assignment_of_mem_multi (fes : List (Nat × FieldEntry)) (f : Nat)
    (h : f ∈ (specMultiValueWriters fes).map MultiValuedFastFieldWriter.field) :
    ∃ e, (f, e) ∈ fes ∧ specWriterAssignment e = .multiValue := by
  simp only [specMultiValueWriters, List.map_map, List.mem_map, List.mem_filter,
    decide_eq_true_eq, Function.comp_def] at h
  obtain ⟨⟨a, b⟩, ⟨hfe, ha⟩, hw⟩ := h
  subst hw
  exact ⟨b, hfe, ha⟩

theorem exists_assignment_of_mem_bytes (fes : List (Nat × FieldEntry)) (f : Nat)
    (h : f ∈ (specBytesWriters fes).map BytesFastFieldWriter.field) :
    ∃ e, (f, e) ∈ fes ∧ specWriterAssignment e = .bytesValue := by
  simp only [specBytesWriters, List.map_map, List.mem_map, List.mem_filter,
    decide_eq_true_eq, Function.comp_def] at h
  obtain ⟨⟨a, b⟩, ⟨hfe, ha⟩, hw⟩ := h
  subst hw
  exact ⟨b, hfe, ha⟩

theorem exists_assignment_of_mem_single (fes : List (Nat × FieldEntry)) (f : Nat)
    (h : f ∈ (specSingleValueWriters fes).map IntFastFieldWriter.field) :
    ∃ e, (f, e) ∈ fes ∧ specWriterAssignment e = .singleValue := by
  simp only [specSingleValueWriters, List.mem_map, List.mem_filterMap] at h
  obtain ⟨fw, ⟨⟨a, b⟩, hfe, hsome⟩, hf⟩ := h
  obtain ⟨hfield, _, ha⟩ := specSingleValueWriter_spec (a, b) fw hsome
  refine ⟨b, ?_, ha⟩
  rw [← hf, hfield]
  exact hfe

theorem assignment_clash {schema : Schema} {f : Nat} {k1 k2 : WriterAssignment}
    (h1 : ∃ e, (f, e) ∈ schema.fields ∧ specWriterAssignment e = k1)
    (h2 : ∃ e, (f, e) ∈ schema.fields ∧ specWriterAssignment e = k2) : k1 = k2 := by
  obtain ⟨e1, m1, a1⟩ := h1
  obtain ⟨e2, m2, a2⟩ := h2
  have he : e1 = e2 := fields_entry_unique schema f e1 e2 m1 m2
  rw [← a1, ← a2, he]

/-! ## Claim theorems -/

/-- C2: for every freshly created `IntFastFieldWriter` and every sequence of N
`add_document` calls, the value count equals N afterward; every `add_document`
call appends exactly one value and increments the count by exactly one. -/
theorem C2_add_document_count :
    (∀ (w : IntFastFieldWriter) (doc : Document),
        (w.add_document doc).val_count = w.val_count + 1 ∧
        (w.add_document doc).vals.entries.length = w.vals.entries.length + 1) ∧
    ∀ (field : Nat) (p : Option DatePrecision) (docs : List Document),
      (docs.foldl IntFastFieldWriter.add_document (IntFastFieldWriter.new field p)).val_count
        = docs.length := by
  refine ⟨fun w doc => ⟨addDocument_val_count w doc, addDocument_entries_length w doc⟩,
    fun field p docs => ?_⟩
  rw [foldl_addDocument_val_count]
  simp [IntFastFieldWriter.new]

/-- C3: a writer to which no value was ever added keeps the internal sentinel
`val_min = u64::MAX`, `val_max = 0`, and the stats it hands to the serializer
in `serialize` are `min = 0, max = 0, count = 0` — normalization happens only
at the serialization boundary. -/
theorem C3_empty_sentinel :
    ∀ (field : Nat) (p : Option DatePrecision) (default : Nat),
      ((IntFastFieldWriter.new field p).set_val_if_missing default).val_min = 2 ^ 64 - 1 ∧
      ((IntFastFieldWriter.new field p).set_val_if_missing default).val_max = 0 ∧
      ((IntFastFieldWriter.new field p).set_val_if_missing default).statsSnapshot
        = ⟨0, 0, 0⟩ ∧
      ∀ (ε : Type) (s : CompositeFastFieldSerializer ε) (dm : Option DocIdMapping),
        ((IntFastFieldWriter.new field p).set_val_if_missing default).serialize s dm
          = s.write (.u64Col field ⟨0, 0, 0⟩) := by
  intro field p default
  have hsnap : ((IntFastFieldWriter.new field p).set_val_if_missing default).statsSnapshot
      = ⟨0, 0, 0⟩ := by
    simp [IntFastFieldWriter.statsSnapshot, IntFastFieldWriter.new,
      IntFastFieldWriter.set_val_if_missing]
  have hfield : ((IntFastFieldWriter.new field p).set_val_if_missing default).field
      = field := rfl
  refine ⟨rfl, rfl, hsnap, fun ε s dm => ?_⟩
  simp only [IntFastFieldWriter.serialize,
    CompositeFastFieldSerializer.create_auto_detect_u64_fast_field,
    IntFastFieldWriter.accessProvider, hfield, hsnap]

/-- C5: after a nonempty sequence of `add_val` calls of u64 values on a fresh
writer, `val_min` is the minimum and `val_max` the maximum of the added values
(so `val_min ≤ val_max`), and each `add_val` step updates `val_min`/`val_max`
as the lattice `min`/`max` with the new value. -/
theorem C5_min_max_invariant :
    (∀ (w : IntFastFieldWriter) (v : Nat),
        (w.add_val v).val_min = min w.val_min v ∧ (w.add_val v).val_max = max w.val_max v) ∧
    ∀ (field : Nat) (p : Option DatePrecision) (vs : List Nat),
      vs ≠ [] → (∀ v ∈ vs, v < 2 ^ 64) →
      ((vs.foldl IntFastFieldWriter.add_val (IntFastFieldWriter.new field p)).val_min ∈ vs ∧
        ∀ v ∈ vs,
          (vs.foldl IntFastFieldWriter.add_val (IntFastFieldWriter.new field p)).val_min ≤ v) ∧
      ((vs.foldl IntFastFieldWriter.add_val (IntFastFieldWriter.new field p)).val_max ∈ vs ∧
        ∀ v ∈ vs,
          v ≤ (vs.foldl IntFastFieldWriter.add_val (IntFastFieldWriter.new field p)).val_max) ∧
      (vs.foldl IntFastFieldWriter.add_val (IntFastFieldWriter.new field p)).val_min ≤
        (vs.foldl IntFastFieldWriter.add_val (IntFastFieldWriter.new field p)).val_max := by
  refine ⟨fun w v => ⟨addVal_val_min w v, addVal_val_max w v⟩, ?_⟩
  intro field p vs hne hbound
  have hmin : (vs.foldl IntFastFieldWriter.add_val (IntFastFieldWriter.new field p)).val_min
      = vs.foldl min (2 ^ 64 - 1) := foldl_addVal_val_min vs _
  have hmax : (vs.foldl IntFastFieldWriter.add_val (IntFastFieldWriter.new field p)).val_max
      = vs.foldl max 0 := foldl_addVal_val_max vs _
  have hminmem : vs.foldl min (2 ^ 64 - 1) ∈ vs := by
    rcases foldl_min_mem vs (2 ^ 64 - 1) with h | h
    · -- the sentinel survived: the first element must then be ≥ the sentinel,
      -- contradicting the u64 bound unless it equals the sentinel
      obtain ⟨v, hv⟩ := List.exists_mem_of_ne_nil vs hne
      have h1 : vs.foldl min (2 ^ 64 - 1) ≤ v := foldl_min_le_mem vs _ v hv
      have h2 : v < 2 ^ 64 := hbound v hv
      have : vs.foldl min (2 ^ 64 - 1) = v := by omega
      rw [this]; exact hv
    · exact h
  have hmaxmem : vs.foldl max 0 ∈ vs := by
    rcases foldl_max_mem vs 0 with h | h
    · obtain ⟨v, hv⟩ := List.exists_mem_of_ne_nil vs hne
      have h1 : v ≤ vs.foldl max 0 := foldl_max_mem_le vs _ v hv
      have : vs.foldl max 0 = v := by omega
      rw [this]; exact hv
    · exact h
  have hminle : ∀ v ∈ vs,
      (vs.foldl IntFastFieldWriter.add_val (IntFastFieldWriter.new field p)).val_min ≤ v := by
    intro v hv
    rw [hmin]
    exact foldl_min_le_mem vs _ v hv
  have hmaxge : ∀ v ∈ vs,
      v ≤ (vs.foldl IntFastFieldWriter.add_val (IntFastFieldWriter.new field p)).val_max := by
    intro v hv
    rw [hmax]
    exact foldl_max_mem_le vs _ v hv
  have hminmem2 : (vs.foldl IntFastFieldWriter.add_val
      (IntFastFieldWriter.new field p)).val_min ∈ vs := by
    rw [hmin]; exact hminmem
  have hmaxmem2 : (vs.foldl IntFastFieldWriter.add_val
      (IntFastFieldWriter.new field p)).val_max ∈ vs := by
    rw [hmax]; exact hmaxmem
  refine ⟨⟨hminmem2, hminle⟩, ⟨hmaxmem2, hmaxge⟩, ?_⟩
  exact hminle _ hmaxmem2

/-- C5 witness: the invariant instantiated on the spec's example `[5, 3, 8]`. -/
theorem C5_min_max_invariant_witness :
    ((([5, 3, 8] : List Nat).foldl IntFastFieldWriter.add_val
        (IntFastFieldWriter.new 0 none)).val_min ∈ ([5, 3, 8] : List Nat) ∧
      ∀ v ∈ ([5, 3, 8] : List Nat),
        (([5, 3, 8] : List Nat).foldl IntFastFieldWriter.add_val
          (IntFastFieldWriter.new 0 none)).val_min ≤ v) ∧
    ((([5, 3, 8] : List Nat).foldl IntFastFieldWriter.add_val
        (IntFastFieldWriter.new 0 none)).val_max ∈ ([5, 3, 8] : List Nat) ∧
      ∀ v ∈ ([5, 3, 8] : List Nat),
        v ≤ (([5, 3, 8] : List Nat).foldl IntFastFieldWriter.add_val
          (IntFastFieldWriter.new 0 none)).val_max) ∧
    (([5, 3, 8] : List Nat).foldl IntFastFieldWriter.add_val
        (IntFastFieldWriter.new 0 none)).val_min ≤
      (([5, 3, 8] : List Nat).foldl IntFastFieldWriter.add_val
        (IntFastFieldWriter.new 0 none)).val_max :=
  C5_min_max_invariant.2 0 none [5, 3, 8] (by decide) (by decide)

/-- C4: on a document missing the field, `add_document` records exactly the
configured missing-value default; `from_schema` configures that default as
`i64_to_u64 0` for signed integer and date fields, `f64_to_u64(0.0)` for float
fields, and raw `0` for every other type. -/
theorem C4_missing_value_default :
    (∀ (w : IntFastFieldWriter) (doc : Document),
        doc.get_first w.field = none →
        w.add_document doc = w.add_val w.val_if_missing ∧
        (w.add_document doc).vals.entries = w.vals.entries ++ [w.val_if_missing]) ∧
    (∀ o : IntOptions, fast_field_default_value ⟨.i64Field o⟩ = i64_to_u64 0) ∧
    (∀ o : DateOptions, fast_field_default_value ⟨.dateField o⟩ = i64_to_u64 0) ∧
    (∀ o : IntOptions, fast_field_default_value ⟨.f64Field o⟩ = f64_to_u64_zero) ∧
    (∀ o : IntOptions, fast_field_default_value ⟨.u64Field o⟩ = 0 ∧
        fast_field_default_value ⟨.boolField o⟩ = 0) ∧
    (∀ o : TextOptions, fast_field_default_value ⟨.strField o⟩ = 0) ∧
    (∀ o : BytesOptions, fast_field_default_value ⟨.bytesField o⟩ = 0) ∧
    (fast_field_default_value ⟨.facetField⟩ = 0 ∧
      fast_field_default_value ⟨.jsonObjectField⟩ = 0) ∧
    ∀ (schema : Schema) (w : IntFastFieldWriter),
      w ∈ (FastFieldsWriter.from_schema schema).single_value_writers →
      ∃ fe ∈ schema.fields, w.field = fe.1 ∧
        w.val_if_missing = fast_field_default_value fe.2 := by
  refine ⟨?_, fun o => rfl, fun o => rfl, fun o => rfl, fun o => ⟨rfl, rfl⟩,
    fun o => rfl, fun o => rfl, ⟨rfl, rfl⟩, ?_⟩
  · intro w doc h
    have habs : w.add_document doc = w.add_val w.val_if_missing := by
      unfold IntFastFieldWriter.add_document
      rw [h]
    exact ⟨habs, by rw [habs, addVal_entries]⟩
  · intro schema w hmem
    rw [from_schema_spec] at hmem
    simp only [specSingleValueWriters, List.mem_filterMap] at hmem
    obtain ⟨fe, hfe, hsome⟩ := hmem
    obtain ⟨hfield, hdefault, _⟩ := specSingleValueWriter_spec fe w hsome
    exact ⟨fe, hfe, hfield, hdefault⟩

/-- C4 witness: a document without the field records the default on a writer
whose default is the encoded zero of a signed-integer field. -/
theorem C4_missing_value_default_witness :
    ((IntFastFieldWriter.new 3 none).set_val_if_missing (i64_to_u64 0)).add_document ⟨[]⟩
        = ((IntFastFieldWriter.new 3 none).set_val_if_missing (i64_to_u64 0)).add_val
          ((IntFastFieldWriter.new 3 none).set_val_if_missing (i64_to_u64 0)).val_if_missing ∧
      (((IntFastFieldWriter.new 3 none).set_val_if_missing (i64_to_u64 0)).add_document
          ⟨[]⟩).vals.entries
        = ((IntFastFieldWriter.new 3 none).set_val_if_missing (i64_to_u64 0)).vals.entries
          ++ [((IntFastFieldWriter.new 3 none).set_val_if_missing
            (i64_to_u64 0)).val_if_missing] :=
  C4_missing_value_default.1 ((IntFastFieldWriter.new 3 none).set_val_if_missing
    (i64_to_u64 0)) ⟨[]⟩ rfl

/-- C8: `from_schema` realizes exactly the spec's dispatch: the four writer
collections are the classifier-filtered schema fields (in schema order), and
each field is placed in at most one of the four collections. -/
theorem C8_field_dispatch :
    ∀ schema : Schema,
      (FastFieldsWriter.from_schema schema).term_id_writers
          = specTermIdWriters schema.fields ∧
      (FastFieldsWriter.from_schema schema).single_value_writers
          = specSingleValueWriters schema.fields ∧
      (FastFieldsWriter.from_schema schema).multi_values_writers
          = specMultiValueWriters schema.fields ∧
      (FastFieldsWriter.from_schema schema).bytes_value_writers
          = specBytesWriters schema.fields ∧
      ∀ f : Nat,
        (if f ∈ ((FastFieldsWriter.from_schema schema).term_id_writers).map
            MultiValuedFastFieldWriter.field then 1 else 0) +
        (if f ∈ ((FastFieldsWriter.from_schema schema).single_value_writers).map
            IntFastFieldWriter.field then 1 else 0) +
        (if f ∈ ((FastFieldsWriter.from_schema schema).multi_values_writers).map
            MultiValuedFastFieldWriter.field then 1 else 0) +
        (if f ∈ ((FastFieldsWriter.from_schema schema).bytes_value_writers).map
            BytesFastFieldWriter.field then 1 else 0) ≤ 1 := by
  intro schema
  refine ⟨by rw [from_schema_spec], by rw [from_schema_spec], by rw [from_schema_spec],
    by rw [from_schema_spec], ?_⟩
  intro f
  simp only [from_schema_spec]
  by_cases hT : f ∈ (specTermIdWriters schema.fields).map MultiValuedFastFieldWriter.field
  · have hS : f ∉ (specSingleValueWriters schema.fields).map IntFastFieldWriter.field := by
      intro hS
      have := assignment_clash (exists_assignment_of_mem_termId _ f hT)
        (exists_assignment_of_mem_single _ f hS)
      simp at this
    have hM : f ∉ (specMultiValueWriters schema.fields).map
        MultiValuedFastFieldWriter.field := by
      intro hM
      have := assignment_clash (exists_assignment_of_mem_termId _ f hT)
        (exists_assignment_of_mem_multi _ f hM)
      simp at this
    have hB : f ∉ (specBytesWriters schema.fields).map BytesFastFieldWriter.field := by
      intro hB
      have := assignment_clash (exists_assignment_of_mem_termId _ f hT)
        (exists_assignment_of_mem_bytes _ f hB)
      simp at this
    simp [hT, hS, hM, hB]
  · by_cases hS : f ∈ (specSingleValueWriters schema.fields).map IntFastFieldWriter.field
    · have hM : f ∉ (specMultiValueWriters schema.fields).map
          MultiValuedFastFieldWriter.field := by
        intro hM
        have := assignment_clash (exists_assignment_of_mem_single _ f hS)
          (exists_assignment_of_mem_multi _ f hM)
        simp at this
      have hB : f ∉ (specBytesWriters schema.fields).map BytesFastFieldWriter.field := by
        intro hB
        have := assignment_clash (exists_assignment_of_mem_single _ f hS)
          (exists_assignment_of_mem_bytes _ f hB)
        simp at this
      simp [hT, hS, hM, hB]
    · by_cases hM : f ∈ (specMultiValueWriters schema.fields).map
          MultiValuedFastFieldWriter.field
      · have hB : f ∉ (specBytesWriters schema.fields).map BytesFastFieldWriter.field := by
          intro hB
          have := assignment_clash (exists_assignment_of_mem_multi _ f hM)
            (exists_assignment_of_mem_bytes _ f hB)
          simp at this
        simp [hT, hS, hM, hB]
      · by_cases hB : f ∈ (specBytesWriters schema.fields).map BytesFastFieldWriter.field <;>
          simp [hT, hS, hM, hB]

/-- C10: with a Document ID Mapping present, `get_val` truncates the u64 doc id
to 32 bits before resolving it through the mapping, so `get_val d` equals
`get_val (d % 2 ^ 32)`; without a mapping the full id indexes the buffer. -/
theorem C10_docid_truncation :
    (∀ (m : DocIdMapping) (vals : BlockedBitpacker) (stats : FastFieldStats) (d : Nat),
        (WriterFastFieldAccessProvider.mk (some m) vals stats).get_val d
          = (WriterFastFieldAccessProvider.mk (some m) vals stats).get_val (d % 2 ^ 32)) ∧
    ∀ (vals : BlockedBitpacker) (stats : FastFieldStats) (d : Nat),
      (WriterFastFieldAccessProvider.mk none vals stats).get_val d
        = vals.entries.getD d 0 := by
  constructor
  · intro m vals stats d
    simp only [WriterFastFieldAccessProvider.get_val]
    rw [Nat.mod_mod_of_dvd d dvd_rfl]
  · intro vals stats d
    rfl

theorem statsSnapshot_num_vals (w : IntFastFieldWriter) :
    w.statsSnapshot.num_vals = w.val_count := by
  unfold IntFastFieldWriter.statsSnapshot
  split <;> rfl

/-- C6: `get_val` reads the buffer directly without a mapping, and through
`get_old_doc_id` with one; on the full-reversal mapping over `[10,20,30,40]`,
`get_val 0 = 40`, `get_val 3 = 10`, and `iter` yields `[40,30,20,10]`. -/
theorem C6_get_val_resolution :
    (∀ (vals : BlockedBitpacker) (stats : FastFieldStats) (d : Nat),
        (WriterFastFieldAccessProvider.mk none vals stats).get_val d = vals.get d) ∧
    (∀ (m : DocIdMapping) (vals : BlockedBitpacker) (stats : FastFieldStats) (d : Nat),
        d < 2 ^ 32 →
        (WriterFastFieldAccessProvider.mk (some m) vals stats).get_val d
          = vals.get (m.get_old_doc_id d)) ∧
    ((WriterFastFieldAccessProvider.mk (some ⟨[3, 2, 1, 0]⟩) ⟨[10, 20, 30, 40]⟩
          ⟨10, 40, 4⟩).get_val 0 = 40 ∧
      (WriterFastFieldAccessProvider.mk (some ⟨[3, 2, 1, 0]⟩) ⟨[10, 20, 30, 40]⟩
          ⟨10, 40, 4⟩).get_val 3 = 10 ∧
      (WriterFastFieldAccessProvider.mk (some ⟨[3, 2, 1, 0]⟩) ⟨[10, 20, 30, 40]⟩
          ⟨10, 40, 4⟩).iter = [40, 30, 20, 10]) := by
  refine ⟨fun vals stats d => rfl, fun m vals stats d hd => ?_, by decide, by decide,
    by decide⟩
  simp only [WriterFastFieldAccessProvider.get_val]
  rw [Nat.mod_eq_of_lt hd]

/-- C6 witness: the mapped branch at a concrete in-range id. -/
theorem C6_get_val_resolution_witness :
    (WriterFastFieldAccessProvider.mk (some ⟨[1, 0]⟩) ⟨[7, 9]⟩ ⟨7, 9, 2⟩).get_val 1
      = (BlockedBitpacker.mk [7, 9]).get ((DocIdMapping.mk [1, 0]).get_old_doc_id 1) :=
  C6_get_val_resolution.2.1 ⟨[1, 0]⟩ ⟨[7, 9]⟩ ⟨7, 9, 2⟩ 1 (by decide)

/-- C9: with a configured precision, `add_document` truncates exactly when the
first value is a date (non-date present values are encoded untruncated), so two
documents whose dates agree after truncation record the same value. -/
theorem C9_date_precision_truncation :
    (∀ (w : IntFastFieldWriter) (doc : Document) (p : DatePrecision) (d : DateTime),
        w.precision_opt = some p →
        doc.get_first w.field = some (.dateVal d) →
        w.add_document doc = w.add_val ((d.truncate p).to_u64)) ∧
    (∀ (w : IntFastFieldWriter) (doc : Document) (v : Value),
        doc.get_first w.field = some v → v.is_date = false →
        w.add_document doc = w.add_val (value_to_u64 v)) ∧
    ∀ (w : IntFastFieldWriter) (doc1 doc2 : Document) (p : DatePrecision)
      (d1 d2 : DateTime),
      w.precision_opt = some p →
      doc1.get_first w.field = some (.dateVal d1) →
      doc2.get_first w.field = some (.dateVal d2) →
      d1.truncate p = d2.truncate p →
      w.add_document doc1 = w.add_document doc2 := by
  have hdate : ∀ (w : IntFastFieldWriter) (doc : Document) (p : DatePrecision)
      (d : DateTime), w.precision_opt = some p →
      doc.get_first w.field = some (.dateVal d) →
      w.add_document doc = w.add_val ((d.truncate p).to_u64) := by
    intro w doc p d hp hget
    unfold IntFastFieldWriter.add_document
    rw [hget, hp]
  refine ⟨hdate, ?_, ?_⟩
  · intro w doc v hget hv
    unfold IntFastFieldWriter.add_document
    rw [hget]
    cases v with
    | dateVal d => simp [Value.is_date] at hv
    | u64Val x => cases w.precision_opt <;> rfl
    | i64Val x => cases w.precision_opt <;> rfl
    | boolVal b => cases w.precision_opt <;> rfl
  · intro w doc1 doc2 p d1 d2 hp h1 h2 htr
    rw [hdate w doc1 p d1 hp h1, hdate w doc2 p d2 hp h2, htr]

/-- C9 witness: two timestamps in the same second but different microseconds
record identical values under second precision. -/
theorem C9_date_precision_truncation_witness :
    (IntFastFieldWriter.new 0 (some .seconds)).add_document
        ⟨[(0, .dateVal ⟨5000123⟩)]⟩
      = (IntFastFieldWriter.new 0 (some .seconds)).add_document
        ⟨[(0, .dateVal ⟨5000999⟩)]⟩ :=
  C9_date_precision_truncation.2.2 (IntFastFieldWriter.new 0 (some .seconds))
    ⟨[(0, .dateVal ⟨5000123⟩)]⟩ ⟨[(0, .dateVal ⟨5000999⟩)]⟩ .seconds ⟨5000123⟩ ⟨5000999⟩
    rfl rfl rfl (by decide)

/-- C1: for every access provider built at serialization (count consistent with
the buffer; a present mapping's `iter_old_doc_ids` yielding `get_old_doc_id i`
for `i` in `0..count`), `iter` equals `get_val i` for `i` in `0..num_vals` in
order. -/
theorem C1_iter_get_val_equivalence :
    ∀ (w : IntFastFieldWriter) (dm : Option DocIdMapping),
      w.val_count = w.vals.entries.length →
      (∀ m, dm = some m →
        m.iter_old_doc_ids = (List.range w.val_count).map m.get_old_doc_id ∧
        w.val_count ≤ 2 ^ 32) →
      (w.accessProvider dm).iter
        = (List.range (w.accessProvider dm).num_vals).map (w.accessProvider dm).get_val := by
  intro w dm hWF hmap
  have hnum : (w.accessProvider dm).num_vals = w.val_count := by
    simp only [WriterFastFieldAccessProvider.num_vals, IntFastFieldWriter.accessProvider]
    exact statsSnapshot_num_vals w
  cases dm with
  | none =>
    rw [hnum, hWF]
    have h1 : (w.accessProvider none).iter = w.vals.entries := rfl
    have h2 : (List.range w.vals.entries.length).map (w.accessProvider none).get_val
        = (List.range w.vals.entries.length).map (fun i => w.vals.entries.getD i 0) :=
      List.map_congr_left (fun i _ => rfl)
    rw [h1, h2, rangeMapGetD]
  | some m =>
    obtain ⟨hiter, hle⟩ := hmap m rfl
    rw [hnum]
    have h1 : (w.accessProvider (some m)).iter
        = m.iter_old_doc_ids.map (fun doc_id => w.vals.get doc_id) := rfl
    rw [h1, hiter, List.map_map]
    refine List.map_congr_left ?_
    intro i hi
    have hilt : i < w.val_count := List.mem_range.mp hi
    have h2 : (w.accessProvider (some m)).get_val i
        = w.vals.get (m.get_old_doc_id (i % 2 ^ 32)) := rfl
    simp only [Function.comp_apply]
    rw [h2, Nat.mod_eq_of_lt (lt_of_lt_of_le hilt hle)]

/-- C1 witness: the equivalence on a concrete reversal-mapped provider. -/
theorem C1_iter_get_val_equivalence_witness :
    ((([10, 20, 30, 40] : List Nat).foldl IntFastFieldWriter.add_val
        (IntFastFieldWriter.new 0 none)).accessProvider (some ⟨[3, 2, 1, 0]⟩)).iter
      = (List.range ((([10, 20, 30, 40] : List Nat).foldl IntFastFieldWriter.add_val
          (IntFastFieldWriter.new 0 none)).accessProvider
            (some ⟨[3, 2, 1, 0]⟩)).num_vals).map
        ((([10, 20, 30, 40] : List Nat).foldl IntFastFieldWriter.add_val
          (IntFastFieldWriter.new 0 none)).accessProvider (some ⟨[3, 2, 1, 0]⟩)).get_val :=
  C1_iter_get_val_equivalence
    (([10, 20, 30, 40] : List Nat).foldl IntFastFieldWriter.add_val
      (IntFastFieldWriter.new 0 none))
    (some ⟨[3, 2, 1, 0]⟩) (by decide)
    (by
      intro m hm
      cases hm
      exact ⟨by decide, by decide⟩)

theorem specWriteRun_ok {ε : Type} (cs : List ColumnWrite)
    (s : CompositeFastFieldSerializer ε) (h : ∀ c ∈ cs, s.oracle c.fieldOf = none) :
    specWriteRun s cs = ({ s with log := s.log ++ cs }, none) := by
  induction cs generalizing s with
  | nil => simp [specWriteRun]
  | cons c t ih =>
    have hc := h c (List.mem_cons_self c t)
    have hrest : ∀ c' ∈ t,
        ({ s with log := s.log ++ [c] } : CompositeFastFieldSerializer ε).oracle c'.fieldOf
          = none :=
      fun c' hc' => h c' (List.mem_cons_of_mem c hc')
    simp [specWriteRun, CompositeFastFieldSerializer.write, hc, ih _ hrest]

theorem specWriteRun_err {ε : Type} (pre : List ColumnWrite) (c : ColumnWrite)
    (post : List ColumnWrite) (s : CompositeFastFieldSerializer ε) (e : ε)
    (hpre : ∀ c' ∈ pre, s.oracle c'.fieldOf = none) (hc : s.oracle c.fieldOf = some e) :
    specWriteRun s (pre ++ c :: post) = ({ s with log := s.log ++ pre }, some e) := by
  induction pre generalizing s with
  | nil => simp [specWriteRun, CompositeFastFieldSerializer.write, hc]
  | cons a t ih =>
    have ha := hpre a (List.mem_cons_self a t)
    have hrest : ∀ c' ∈ t,
        ({ s with log := s.log ++ [a] } : CompositeFastFieldSerializer ε).oracle c'.fieldOf
          = none :=
      fun c' hc' => hpre c' (List.mem_cons_of_mem a hc')
    simp [specWriteRun, CompositeFastFieldSerializer.write, ha, ih _ hrest hc]

theorem serializeEach_eq_specWriteRun {ε α : Type}
    (f : α → CompositeFastFieldSerializer ε → CompositeFastFieldSerializer ε × Option ε)
    (colOf : α → ColumnWrite)
    (hf : ∀ (x : α) (st : CompositeFastFieldSerializer ε), f x st = st.write (colOf x))
    (ws : List α) (s : CompositeFastFieldSerializer ε) :
    serializeEach f ws s = specWriteRun s (ws.map colOf) := by
  induction ws generalizing s with
  | nil => rfl
  | cons x t ih =>
    simp only [serializeEach, List.map_cons, specWriteRun, hf x s]
    rcases s.write (colOf x) with ⟨s1, eo⟩
    cases eo <;> simp [ih]

theorem specWriteRun_append {ε : Type} (a b : List ColumnWrite)
    (s : CompositeFastFieldSerializer ε) :
    specWriteRun s (a ++ b) =
      match specWriteRun s a with
      | (s1, none) => specWriteRun s1 b
      | (s1, some e) => (s1, some e) := by
  induction a generalizing s with
  | nil => simp [specWriteRun]
  | cons c t ih =>
    simp only [List.cons_append, specWriteRun]
    rcases s.write c with ⟨s1, eo⟩
    cases eo <;> simp [ih]

theorem serialize_eq_columnWrites {ε : Type} (w : FastFieldsWriter)
    (s : CompositeFastFieldSerializer ε) (mapping : Nat → Option TermIdToOrdinal)
    (dm : Option DocIdMapping) :
    w.serialize s mapping dm = specWriteRun s w.columnWrites := by
  unfold FastFieldsWriter.serialize FastFieldsWriter.columnWrites
  rw [serializeEach_eq_specWriteRun
      (fun fw st => fw.serialize st (mapping fw.field) dm)
      (fun fw => ColumnWrite.multiCol fw.field) (fun x st => rfl) w.term_id_writers s]
  have hassoc :
      w.term_id_writers.map (fun fw => ColumnWrite.multiCol fw.field)
        ++ w.single_value_writers.map (fun fw => ColumnWrite.u64Col fw.field fw.statsSnapshot)
        ++ w.multi_values_writers.map (fun fw => ColumnWrite.multiCol fw.field)
        ++ w.bytes_value_writers.map (fun fw => ColumnWrite.bytesCol fw.field)
      = w.term_id_writers.map (fun fw => ColumnWrite.multiCol fw.field)
        ++ (w.single_value_writers.map (fun fw => ColumnWrite.u64Col fw.field fw.statsSnapshot)
          ++ (w.multi_values_writers.map (fun fw => ColumnWrite.multiCol fw.field)
            ++ w.bytes_value_writers.map (fun fw => ColumnWrite.bytesCol fw.field))) := by
    simp [List.append_assoc]
  rw [hassoc, specWriteRun_append]
  rcases h1 : specWriteRun s (w.term_id_writers.map fun fw => ColumnWrite.multiCol fw.field)
    with ⟨s1, eo1⟩
  rw [h1]
  cases eo1 with
  | some e => rfl
  | none =>
    simp only
    rw [serializeEach_eq_specWriteRun
        (fun fw st => fw.serialize st dm)
        (fun fw => ColumnWrite.u64Col fw.field fw.statsSnapshot) (fun x st => rfl)
        w.single_value_writers s1]
    rw [specWriteRun_append]
    rcases h2 : specWriteRun s1
        (w.single_value_writers.map fun fw => ColumnWrite.u64Col fw.field fw.statsSnapshot)
      with ⟨s2, eo2⟩
    rw [h2]
    cases eo2 with
    | some e => rfl
    | none =>
      simp only
      rw [serializeEach_eq_specWriteRun
          (fun fw st => fw.serialize st (mapping fw.field) dm)
          (fun fw => ColumnWrite.multiCol fw.field) (fun x st => rfl)
          w.multi_values_writers s2]
      rw [specWriteRun_append]
      rcases h3 : specWriteRun s2
          (w.multi_values_writers.map fun fw => ColumnWrite.multiCol fw.field)
        with ⟨s3, eo3⟩
      rw [h3]
      cases eo3 with
      | some e => rfl
      | none =>
        simp only
        rw [serializeEach_eq_specWriteRun
            (fun fw st => fw.serialize st dm)
            (fun fw => ColumnWrite.bytesCol fw.field) (fun x st => rfl)
            w.bytes_value_writers s3]

/-- C7: `serialize` issues the column requests of all held writers in order
(term-ordinal, single-value, multi-value, bytes); if every request succeeds it
returns no error and all columns are written; at the first failing writer the
error is returned verbatim and no later writer is serialized. -/
theorem C7_serialize_first_error {ε : Type} :
    ∀ (w : FastFieldsWriter) (s : CompositeFastFieldSerializer ε)
      (mapping : Nat → Option TermIdToOrdinal) (dm : Option DocIdMapping),
      w.serialize s mapping dm = specWriteRun s w.columnWrites ∧
      ((∀ c ∈ w.columnWrites, s.oracle c.fieldOf = none) →
        w.serialize s mapping dm = ({ s with log := s.log ++ w.columnWrites }, none)) ∧
      ∀ (pre : List ColumnWrite) (c : ColumnWrite) (post : List ColumnWrite) (e : ε),
        w.columnWrites = pre ++ c :: post →
        (∀ c' ∈ pre, s.oracle c'.fieldOf = none) →
        s.oracle c.fieldOf = some e →
        w.serialize s mapping dm = ({ s with log := s.log ++ pre }, some e) := by
  intro w s mapping dm
  refine ⟨serialize_eq_columnWrites w s mapping dm, ?_, ?_⟩
  · intro h
    rw [serialize_eq_columnWrites, specWriteRun_ok _ _ h]
  · intro pre c post e hdec hpre hc
    rw [serialize_eq_columnWrites, hdec, specWriteRun_err pre c post s e hpre hc]

/-- C7 witness: a serializer failing on the multi-value writer's field stops
after the single-value column, returning the error verbatim. -/
theorem C7_serialize_first_error_witness :
    (FastFieldsWriter.mk [] [IntFastFieldWriter.new 5 none] [⟨7⟩] []).serialize
        (CompositeFastFieldSerializer.mk (fun f => if f = 7 then some 42 else none) [])
        (fun _ => none) none
      = ({ CompositeFastFieldSerializer.mk
            (fun f => if f = 7 then some 42 else none) ([] : List ColumnWrite) with
          log := [] ++ [ColumnWrite.u64Col 5 ⟨0, 0, 0⟩] }, some 42) :=
  (C7_serialize_first_error (FastFieldsWriter.mk [] [IntFastFieldWriter.new 5 none] [⟨7⟩] [])
      (CompositeFastFieldSerializer.mk (fun f => if f = 7 then some 42 else none) [])
      (fun _ => none) none).2.2
    [ColumnWrite.u64Col 5 ⟨0, 0, 0⟩] (ColumnWrite.multiCol 7) [] 42
    (by decide) (by decide) (by decide)

end FastFieldWriter
